import Mathlib

set_option maxRecDepth 8192

/-!
Verification development for the Chronicle diary application.

The definitions below are a shallow embedding of the JavaScript sources:
the IndexedDB storage shim (`DiaryStorage`), the Supabase fallback path,
the quick-log catalog (`QuickLog`), the settings export/import module
(`Settings`), and the calendar bucketing (`CalendarView`).  JavaScript
strings are modelled by `String`, arrays by `List`, objects with optional
fields by structures with `Option` fields, promise rejection by
`Except`/`Option` results, and `Date.now()` by an explicit `now : Nat`
parameter (epoch milliseconds).  All definitions are computable and
structurally recursive so that concrete runs evaluate inside the kernel.
-/

/-! ## JavaScript string primitives -/

/-- Code-unit-wise lexicographic comparison of character lists, modelling the
default JavaScript string comparison (`<`/`>` and the default `sort()`
comparator).  All strings in this code base are ASCII, where code units and
code points coincide. -/
def charListLe : List Char → List Char → Bool
  | [], _ => true
  | _ :: _, [] => false
  | a :: as, b :: bs =>
    if a.toNat < b.toNat then true
    else if b.toNat < a.toNat then false
    else charListLe as bs

/-- JavaScript string `≤` via `charListLe`. -/
def strLe (a b : String) : Bool := charListLe a.data b.data

/-- Model of `String.prototype.trim`: strip whitespace from both ends. -/
def jsTrim (s : String) : String :=
  ⟨((s.data.dropWhile Char.isWhitespace).reverse.dropWhile Char.isWhitespace).reverse⟩

/-- Insert an element into a sorted list, before the first element it is
`le`-below.  Placing `x` in front of equal elements makes the resulting sort
stable, matching the guarantee of JavaScript `Array.prototype.sort`. -/
def insertBy (le : α → α → Bool) (x : α) : List α → List α
  | [] => [x]
  | y :: ys => if le x y then x :: y :: ys else y :: insertBy le x ys

/-- Stable sort by a boolean comparator, modelling
`Array.prototype.sort(comparator)`. -/
def sortBy (le : α → α → Bool) : List α → List α
  | [] => []
  | x :: xs => insertBy le x (sortBy le xs)

/-- First-occurrence deduplication worker: `seen` holds the values already
emitted. -/
def setDedupAux (seen : List String) : List String → List String
  | [] => []
  | x :: xs => if x ∈ seen then setDedupAux seen xs else x :: setDedupAux (x :: seen) xs

/-- Model of `[...new Set(list)]`: remove duplicates, keeping the first
occurrence of each string in order. -/
def setDedup (l : List String) : List String := setDedupAux [] l

/-- Parse a non-empty all-digit character list as a decimal number. -/
def charsToNat? (l : List Char) : Option Nat :=
  if l ≠ [] ∧ l.all Char.isDigit then
    some (l.foldl (fun acc c => acc * 10 + (c.toNat - 48)) 0)
  else none

/-- Split a character list on the dash character, like `split("-")`. -/
def splitOnDash : List Char → List (List Char)
  | [] => [[]]
  | c :: cs =>
    let rest := splitOnDash cs
    if c = '-' then [] :: rest
    else
      match rest with
      | [] => [[c]]
      | h :: t => (c :: h) :: t

/-! ## Epoch-milliseconds to ISO-8601 string (`new Date(ms).toISOString()`) -/

/-- Left-pad a number to two digits. -/
def pad2 (n : Nat) : String := if n < 10 then "0" ++ toString n else toString n

/-- Left-pad a number to three digits. -/
def pad3 (n : Nat) : String :=
  if n < 10 then "00" ++ toString n
  else if n < 100 then "0" ++ toString n
  else toString n

/-- Left-pad a number to four digits. -/
def pad4 (n : Nat) : String :=
  if n < 10 then "000" ++ toString n
  else if n < 100 then "00" ++ toString n
  else if n < 1000 then "0" ++ toString n
  else toString n

/-- Convert a count of days since 1970-01-01 into a Gregorian
(year, month, day) triple, by the standard civil-from-days computation. -/
def civilFromDays (z0 : Nat) : Nat × Nat × Nat :=
  let z := z0 + 719468
  let era := z / 146097
  let doe := z % 146097
  let yoe := (doe - doe / 1460 + doe / 36524 - doe / 146097) / 365
  let y := yoe + era * 400
  let doy := doe - (365 * yoe + yoe / 4 - yoe / 100)
  let mp := (5 * doy + 2) / 153
  let d := doy - (153 * mp + 2) / 5 + 1
  let m := if mp < 10 then mp + 3 else mp - 9
  (if m ≤ 2 then y + 1 else y, m, d)

/-- Model of `new Date(ms).toISOString()` for a non-negative epoch-millisecond
timestamp: the UTC calendar date and time rendered as
`YYYY-MM-DDTHH:MM:SS.mmmZ`. -/
def jsToISOString (ms : Nat) : String :=
  let days := ms / 86400000
  let msOfDay := ms % 86400000
  let ymd := civilFromDays days
  pad4 ymd.1 ++ "-" ++ pad2 ymd.2.1 ++ "-" ++ pad2 ymd.2.2 ++ "T" ++
    pad2 (msOfDay / 3600000) ++ ":" ++ pad2 (msOfDay % 3600000 / 60000) ++ ":" ++
    pad2 (msOfDay % 60000 / 1000) ++ "." ++ pad3 (msOfDay % 1000) ++ "Z"

/-! ## Data model (storage shim, `part_000`) -/

/-- A stored diary entry, as written by `createEntryIndexedDB`. -/
structure Entry where
  id : String
  timestamp : Nat
  date : String
  type : String
  content : String
  tags : List String
  customFields : List (String × String)
deriving DecidableEq

/-- The `entryData` argument of `createEntry`: a JavaScript object whose
`type`, `tags` and `customFields` properties may be absent. -/
structure EntryDraft where
  type : Option String
  content : String
  tags : Option (List String)
  customFields : Option (List (String × String))
deriving DecidableEq

/-- The `updates` argument of `updateEntry`: a patch object where every
property may be absent. -/
structure EntryPatch where
  id : Option String
  timestamp : Option Nat
  date : Option String
  type : Option String
  content : Option String
  tags : Option (List String)
  customFields : Option (List (String × String))
deriving DecidableEq

/-- The contents of the IndexedDB `entries` object store, in insertion order.
The store is keyed by `id` (`keyPath: 'id'`), so `add` enforces key
uniqueness. -/
abbrev Store := List Entry

/-- JavaScript `x || dflt` for an optional string: absent or empty strings are
falsy and replaced by the default. -/
def jsOrString (o : Option String) (dflt : String) : String :=
  match o with
  | none => dflt
  | some s => if s = "" then dflt else s

/-- The closed category set for entry types. -/
def entryTypes : List String := ["event", "thought", "habit", "food", "health"]

/-! ## IndexedDB storage operations -/

/-- The record built by `createEntryIndexedDB`: a fresh id and timestamp from
`Date.now()`, the ISO date string, and the draft's fields with JavaScript
defaulting (`entryData.type || 'event'`, `entryData.tags || []`,
`entryData.customFields || {}`). -/
def mkEntry (now : Nat) (entryData : EntryDraft) : Entry :=
  { id := toString now
    timestamp := now
    date := jsToISOString now
    type := jsOrString entryData.type "event"
    content := entryData.content
    tags := entryData.tags.getD []
    customFields := entryData.customFields.getD [] }

/-- `createEntryIndexedDB`: build the record and `store.add` it.  `add` fires
`onerror` with a `ConstraintError` when a record with the same key already
exists; otherwise the record is appended and the promise resolves with the new
id. -/
def createEntryIndexedDB (now : Nat) (entryData : EntryDraft) (st : Store) :
    Except String (String × Store) :=
  let entry := mkEntry now entryData
  if st.any (fun e => e.id == entry.id) then Except.error "ConstraintError"
  else Except.ok (entry.id, st ++ [entry])

/-- `getEntryIndexedDB`: `store.get(id)` resolves with the record whose key is
`id`, or with `undefined` (here `none`) when no such record exists. -/
def getEntryIndexedDB (id : String) (st : Store) : Option Entry :=
  st.find? (fun e => e.id == id)

/-- `getAllEntriesIndexedDB`: `store.getAll()` yields the records in ascending
key order; the result is then sorted by the comparator
`(a, b) => b.timestamp - a.timestamp`, i.e. stably by descending timestamp. -/
def getAllEntriesIndexedDB (st : Store) : List Entry :=
  let fetched := sortBy (fun a b => strLe a.id b.id) st
  sortBy (fun a b => Nat.ble b.timestamp a.timestamp) fetched

/-- The merged record of `updateEntryIndexedDB`:
`{ ...entry, ...updates, id, timestamp: entry.timestamp }` — patch fields
override the stored ones, then `id` is forced back to the lookup key and
`timestamp` back to the stored value. -/
def applyUpdate (entry : Entry) (updates : EntryPatch) (id : String) : Entry :=
  { id := id
    timestamp := entry.timestamp
    date := updates.date.getD entry.date
    type := updates.type.getD entry.type
    content := updates.content.getD entry.content
    tags := updates.tags.getD entry.tags
    customFields := updates.customFields.getD entry.customFields }

/-- `store.put(record)`: replace the record whose key equals the record's key,
or append it when none exists. -/
def putRecord : Store → Entry → Store
  | [], e => [e]
  | x :: xs, e => if x.id = e.id then e :: xs else x :: putRecord xs e

/-- `updateEntryIndexedDB`: fetch the entry, reject with `Entry not found` when
it is absent, otherwise `put` the merged record. -/
def updateEntryIndexedDB (id : String) (updates : EntryPatch) (st : Store) :
    Except String Store :=
  match getEntryIndexedDB id st with
  | none => Except.error "Entry not found"
  | some entry => Except.ok (putRecord st (applyUpdate entry updates id))

/-- `deleteEntryIndexedDB`: `store.delete(id)` removes the record with key `id`
when present; the delete request succeeds whether or not such a record exists
(only an uninitialized database rejects, which this store-level model
excludes). -/
def deleteEntryIndexedDB (id : String) (st : Store) : Except String Store :=
  Except.ok (st.filter (fun e => !(e.id == id)))

/-! ## Supabase create path with local fallback -/

/-- The row sent to the remote `entries` table by `createEntrySupabase`. -/
structure RemoteEntry where
  user_id : String
  type : String
  content : String
  tags : List String
deriving DecidableEq

/-- The row built from the draft: `user_id`, `entryData.type || 'event'`,
`content`, `entryData.tags || []`. -/
def remoteEntryOf (uid : String) (entryData : EntryDraft) : RemoteEntry :=
  { user_id := uid
    type := jsOrString entryData.type "event"
    content := entryData.content
    tags := entryData.tags.getD [] }

/-- `createEntrySupabase`: when no authenticated user exists, fall back to the
local store; otherwise attempt the remote insert (modelled by the `remote`
oracle, returning the server-generated id or an error) and fall back to the
local store on any remote error.  The fallback swallows the remote failure. -/
def createEntrySupabase (userId : Option String)
    (remote : RemoteEntry → Except String String) (now : Nat)
    (entryData : EntryDraft) (st : Store) : Except String (String × Store) :=
  match userId with
  | none => createEntryIndexedDB now entryData st
  | some uid =>
    match remote (remoteEntryOf uid entryData) with
    | Except.ok rid => Except.ok (rid, st)
    | Except.error _ => createEntryIndexedDB now entryData st

/-! ## Quick-log catalog (`quicklog.js`) -/

/-- The fixed built-in habit options. -/
def habitDefaults : List String :=
  ["Morning meditation", "Exercise", "Read for 30min", "Drink 8 glasses of water",
   "No social media", "Early to bed", "Journaling", "Gratitude practice"]

/-- The fixed built-in food options. -/
def foodDefaults : List String :=
  ["Breakfast", "Lunch", "Dinner", "Snack", "Healthy meal", "Cheat meal",
   "Skipped meal", "Ate out", "Meal prep"]

/-- The fixed built-in health options. -/
def healthDefaults : List String :=
  ["Took medication", "8+ hours sleep", "Feeling energetic", "Feeling tired",
   "Headache", "Workout completed", "Doctor appointment", "Vitamins taken",
   "Feeling great"]

/-- `defaultOptions[type]`: the built-in catalog, `none` for a property that is
absent from the object. -/
def defaultOptions (ty : String) : Option (List String) :=
  if ty = "habit" then some habitDefaults
  else if ty = "food" then some foodDefaults
  else if ty = "health" then some healthDefaults
  else none

/-- The `customOptions` object: per-category user-added strings.  Keys can be
added dynamically, so it is modelled as an association list. -/
abbrev CustomOptions := List (String × List String)

/-- `customOptions[type]`: property lookup, `none` when the key is absent. -/
def lookupCustom (c : CustomOptions) (ty : String) : Option (List String) :=
  (c.find? (fun p => p.1 == ty)).map (fun p => p.2)

/-- `customOptions[type] = v`: overwrite the property, creating it when
absent. -/
def setCustom : CustomOptions → String → List String → CustomOptions
  | [], ty, v => [(ty, v)]
  | (k, xs) :: rest, ty, v =>
    if k = ty then (ty, v) :: rest else (k, xs) :: setCustom rest ty v

/-- The state of `customOptions` on page load (`habit`, `food`, `health` all
empty). -/
def initialCustomOptions : CustomOptions := [("habit", []), ("food", []), ("health", [])]

/-- `getOptions(type)`: return `[]` when the type has no built-in list,
otherwise merge defaults with the custom list, deduplicate via a `Set`, and
sort with the default string comparator. -/
def getOptions (c : CustomOptions) (ty : String) : List String :=
  match defaultOptions ty with
  | none => []
  | some defaults =>
    let custom := (lookupCustom c ty).getD []
    sortBy strLe (setDedup (defaults ++ custom))

/-- `addCustomOption(type, option)`: reject blank input, ensure the category
key exists, reject an option already present in the merged list (exact,
case-sensitive match on the trimmed string), otherwise push the trimmed string
onto the custom list.  Returns the success flag with the new state. -/
def addCustomOption (c : CustomOptions) (ty option : String) : Bool × CustomOptions :=
  if jsTrim option = "" then (false, c)
  else
    let trimmedOption := jsTrim option
    let c1 := match lookupCustom c ty with
      | none => setCustom c ty []
      | some _ => c
    if trimmedOption ∈ getOptions c1 ty then (false, c1)
    else (true, setCustom c1 ty ((lookupCustom c1 ty).getD [] ++ [trimmedOption]))

/-- Invariant of every `customOptions` state the application can reach: each
stored custom option was pushed by `addCustomOption` as a trimmed, non-blank
string. -/
def WFCustomOptions (c : CustomOptions) : Prop :=
  ∀ p ∈ c, ∀ s ∈ p.2, jsTrim s = s ∧ s ≠ ""

/-! ## Settings and export/import (`settings.js`) -/

/-- The in-memory settings object (currently one flag). -/
structure SettingsState where
  darkMode : Bool
deriving DecidableEq

/-- The `defaultSettings` object. -/
def defaultSettings : SettingsState := { darkMode := true }

/-- A settings blob read from an import file, where the flag may be absent. -/
structure SettingsBlob where
  darkMode : Option Bool
deriving DecidableEq

/-- `{ ...defaultSettings, ...data.settings }`: shallow merge over the
defaults. -/
def mergeSettings (blob : SettingsBlob) : SettingsState :=
  { darkMode := blob.darkMode.getD defaultSettings.darkMode }

/-- The blob produced by serializing a settings state. -/
def blobOfSettings (s : SettingsState) : SettingsBlob := { darkMode := some s.darkMode }

/-- The `entries` property of a parsed import document: absent, present but
not an array (with its JavaScript truthiness), or an actual array. -/
inductive EntriesField where
  | absent
  | nonArray (truthy : Bool)
  | array (es : List EntryDraft)
deriving DecidableEq

/-- A parsed import document: its `entries` property and optional `settings`
object. -/
structure ImportDoc where
  entries : EntriesField
  settings : Option SettingsBlob
deriving DecidableEq

/-- The export document built by `exportData`:
`{ version: 1, timestamp, entries, settings }` with the entries read through
`getAllEntries`. -/
structure ExportDoc where
  version : Nat
  timestamp : String
  entries : List Entry
  settings : SettingsState
deriving DecidableEq

/-- `exportData` over the local store: serialize all entries (in listing
order) together with the settings blob. -/
def exportData (st : Store) (stg : SettingsState) (nowIso : String) : ExportDoc :=
  { version := 1
    timestamp := nowIso
    entries := getAllEntriesIndexedDB st
    settings := stg }

/-- The fields of a stored entry that `createEntry` reads when the entry is
replayed as `entryData` during import. -/
def draftOfEntry (e : Entry) : EntryDraft :=
  { type := some e.type
    content := e.content
    tags := some e.tags
    customFields := some e.customFields }

/-- An export document re-read as an import document: the serialized entries
come back as an array of entry objects, the settings as a blob. -/
def importDocOfExport (doc : ExportDoc) : ImportDoc :=
  { entries := EntriesField.array (doc.entries.map draftOfEntry)
    settings := some (blobOfSettings doc.settings) }

/-- The import loop `for (const entry of data.entries) await createEntry(entry)`
on the local store.  `clock i` is the `Date.now()` value observed by the i-th
create.  A failing create aborts the loop, keeping the writes made so far. -/
def importEntries (clock : Nat → Nat) : Nat → List EntryDraft → Store →
    Option String × Store
  | _, [], st => (none, st)
  | i, d :: ds, st =>
    match createEntryIndexedDB (clock i) d st with
    | Except.ok (_, st') => importEntries clock (i + 1) ds st'
    | Except.error e => (some e, st)

/-- The records the import loop appends when every create succeeds. -/
def importedEntries (clock : Nat → Nat) : Nat → List EntryDraft → List Entry
  | _, [] => []
  | i, d :: ds => mkEntry (clock i) d :: importedEntries clock (i + 1) ds

/-- `importData`: validate that the document has an `entries` array (throwing
`Invalid data format` before any write otherwise), ask for confirmation
(returning silently when declined), replay the entries through `createEntry`,
and finally merge the document's settings over the defaults when present.
The result is the error surfaced to the catch handler (if any) together with
the final store and settings. -/
def importData (doc : ImportDoc) (confirmed : Bool) (clock : Nat → Nat)
    (st : Store) (stg : SettingsState) : Option String × Store × SettingsState :=
  match doc.entries with
  | EntriesField.array es =>
    if confirmed then
      match importEntries clock 0 es st with
      | (none, st') =>
        match doc.settings with
        | some blob => (none, st', mergeSettings blob)
        | none => (none, st', stg)
      | (some e, st') => (some e, st', stg)
    else (none, st, stg)
  | _ => (some "Invalid data format", st, stg)

/-! ## Calendar bucketing (`calendar.js`) -/

/-- Gregorian leap-year test, as used by JavaScript `Date` arithmetic. -/
def isLeapYear (y : Nat) : Bool :=
  (y % 4 == 0 && y % 100 != 0) || y % 400 == 0

/-- `new Date(year, month + 1, 0).getDate()`: the number of days of the
0-based `month0` of `year`. -/
def daysInMonth (year month0 : Nat) : Nat :=
  if month0 == 1 then (if isLeapYear year then 29 else 28)
  else if month0 == 3 || month0 == 5 || month0 == 8 || month0 == 10 then 30
  else 31

/-- The bucket key
`` `${date.getFullYear()}-${date.getMonth()}-${date.getDate()}` `` computed by
`loadEntries` from `new Date(entry.date)`: the year, 0-based month, and day of
the entry's ISO date string (the host clock is taken to be UTC, so the local
calendar fields coincide with the encoded UTC date).  An unparseable date
yields the `Invalid Date` key `NaN-NaN-NaN`. -/
def jsDateKey (dateStr : String) : String :=
  match splitOnDash dateStr.data with
  | ys :: ms :: ds :: _ =>
    match charsToNat? ys, charsToNat? ms, charsToNat? (ds.takeWhile Char.isDigit) with
    | some y, some m, some d =>
      toString y ++ "-" ++ toString (m - 1) ++ "-" ++ toString d
    | _, _, _ => "NaN-NaN-NaN"
  | _ => "NaN-NaN-NaN"

/-- Append an entry to the bucket of its key, creating the bucket when new
(the `entriesMap` updates of `loadEntries`). -/
def addToBuckets (bs : List (String × List Entry)) (key : String) (e : Entry) :
    List (String × List Entry) :=
  match bs with
  | [] => [(key, [e])]
  | (k, es) :: rest =>
    if k = key then (k, es ++ [e]) :: rest else (k, es) :: addToBuckets rest key e

/-- `loadEntries`: clear the map and bucket every entry by its date key. -/
def loadEntries (entries : List Entry) : List (String × List Entry) :=
  entries.foldl (fun bs e => addToBuckets bs (jsDateKey e.date) e) []

/-- `entriesMap.get(key)` / `entriesMap.has(key)`. -/
def lookupBuckets (bs : List (String × List Entry)) (key : String) :
    Option (List Entry) :=
  (bs.find? (fun p => p.1 == key)).map (fun p => p.2)

/-- The cell key `` `${year}-${month}-${day}` `` used by `render`. -/
def mkDayKey (year month0 day : Nat) : String :=
  toString year ++ "-" ++ toString month0 ++ "-" ++ toString day

/-- The marked days `render` produces for a month: for each day of the month,
the entry-indicator count when the day's bucket exists. -/
def renderMarkedDays (year month0 : Nat) (buckets : List (String × List Entry)) :
    List (Nat × Nat) :=
  ((List.range (daysInMonth year month0)).map (fun i => i + 1)).filterMap
    (fun day =>
      match lookupBuckets buckets (mkDayKey year month0 day) with
      | some es => some (day, es.length)
      | none => none)

/-! ## Sample values used by concrete runs -/

/-- Draft used by the concrete run of the create/get round trip. -/
def c1draft : EntryDraft :=
  { type := some "thought", content := "hello", tags := some ["a", "b"], customFields := none }

/-- Entry used by the concrete runs around deletion. -/
def c4entry : Entry :=
  { id := "1", timestamp := 1, date := "1970-01-01T00:00:00.001Z", type := "event",
    content := "x", tags := [], customFields := [] }

/-- Entry used by the concrete export/import run. -/
def c5entry : Entry :=
  { id := "1", timestamp := 1, date := "1970-01-01T00:00:00.001Z", type := "thought",
    content := "c", tags := ["t"], customFields := [] }

/-- Malformed import document used by the concrete validation run. -/
def c6doc : ImportDoc := { entries := EntriesField.nonArray true, settings := none }

/-- Entries dated 2024-03-01 and 2024-03-31 for the calendar run. -/
def c9entry1 : Entry :=
  { id := "1", timestamp := 1, date := "2024-03-01", type := "event", content := "a",
    tags := [], customFields := [] }

/-- Second calendar entry. -/
def c9entry2 : Entry :=
  { id := "2", timestamp := 2, date := "2024-03-31", type := "event", content := "b",
    tags := [], customFields := [] }

/-- Entry used by the concrete update run. -/
def c10entry : Entry :=
  { id := "5", timestamp := 10, date := "1970-01-01T00:00:00.010Z", type := "event",
    content := "orig", tags := ["t"], customFields := [] }

/-- Patch that tries to overwrite `id` and `timestamp`. -/
def c10patch : EntryPatch :=
  { id := some "999", timestamp := some 999, date := none, type := none,
    content := some "new", tags := none, customFields := none }

/-! ## Lemmas about the sorting and deduplication primitives -/

theorem insertBy_perm (le : α → α → Bool) (x : α) (l : List α) :
    List.Perm (insertBy le x l) (x :: l) := by
  induction l with
  | nil => rfl
  | cons y ys ih =>
    simp only [insertBy]
    by_cases h : le x y = true
    · rw [if_pos h]
    · rw [if_neg h]
      exact (ih.cons y).trans (List.Perm.swap x y ys)

theorem sortBy_perm (le : α → α → Bool) (l : List α) : List.Perm (sortBy le l) l := by
  induction l with
  | nil => rfl
  | cons x xs ih => exact (insertBy_perm le x (sortBy le xs)).trans (ih.cons x)

theorem insertBy_pairwise (le : α → α → Bool)
    (htrans : ∀ a b c, le a b = true → le b c = true → le a c = true)
    (htot : ∀ a b, le a b = true ∨ le b a = true)
    (x : α) (l : List α) (hl : l.Pairwise (fun a b => le a b = true)) :
    (insertBy le x l).Pairwise (fun a b => le a b = true) := by
  induction l with
  | nil => simp [insertBy]
  | cons y ys ih =>
    rw [List.pairwise_cons] at hl
    obtain ⟨hy, hys⟩ := hl
    simp only [insertBy]
    by_cases h : le x y = true
    · rw [if_pos h]
      refine List.Pairwise.cons ?_ (List.Pairwise.cons hy hys)
      intro z hz
      rcases List.mem_cons.mp hz with rfl | hz'
      · exact h
      · exact htrans x y z h (hy z hz')
    · rw [if_neg h]
      have hyx : le y x = true := (htot x y).resolve_left h
      refine List.Pairwise.cons ?_ (ih hys)
      intro z hz
      rcases List.mem_cons.mp ((insertBy_perm le x ys).mem_iff.mp hz) with rfl | hz'
      · exact hyx
      · exact hy z hz'

theorem sortBy_pairwise (le : α → α → Bool)
    (htrans : ∀ a b c, le a b = true → le b c = true → le a c = true)
    (htot : ∀ a b, le a b = true ∨ le b a = true) (l : List α) :
    (sortBy le l).Pairwise (fun a b => le a b = true) := by
  induction l with
  | nil => simp [sortBy]
  | cons x xs ih => exact insertBy_pairwise le htrans htot x (sortBy le xs) ih

theorem charListLe_total : ∀ a b : List Char, charListLe a b = true ∨ charListLe b a = true
  | [], _ => Or.inl rfl
  | _ :: _, [] => Or.inr rfl
  | x :: xs, y :: ys => by
    simp only [charListLe]
    rcases Nat.lt_trichotomy x.toNat y.toNat with h | h | h
    · left; rw [if_pos h]
    · have h1 : ¬ x.toNat < y.toNat := by omega
      have h2 : ¬ y.toNat < x.toNat := by omega
      simp only [if_neg h1, if_neg h2]
      exact charListLe_total xs ys
    · right; rw [if_pos h]

theorem charListLe_trans : ∀ a b c : List Char,
    charListLe a b = true → charListLe b c = true → charListLe a c = true
  | [], _, _, _, _ => rfl
  | _ :: _, [], _, hab, _ => by simp [charListLe] at hab
  | _ :: _, _ :: _, [], _, hbc => by simp [charListLe] at hbc
  | x :: xs, y :: ys, z :: zs, hab, hbc => by
    simp only [charListLe] at hab hbc ⊢
    rcases Nat.lt_trichotomy x.toNat y.toNat with hxy | hxy | hxy
    · rcases Nat.lt_trichotomy y.toNat z.toNat with hyz | hyz | hyz
      · rw [if_pos (by omega)]
      · rw [if_pos (by omega)]
      · rw [if_neg (by omega), if_pos (by omega)] at hbc
        exact absurd hbc (by simp)
    · rcases Nat.lt_trichotomy y.toNat z.toNat with hyz | hyz | hyz
      · rw [if_pos (by omega)]
      · rw [if_neg (by omega), if_neg (by omega)] at hab
        rw [if_neg (by omega), if_neg (by omega)] at hbc
        rw [if_neg (by omega), if_neg (by omega)]
        exact charListLe_trans xs ys zs hab hbc
      · rw [if_neg (by omega), if_pos (by omega)] at hbc
        exact absurd hbc (by simp)
    · rw [if_neg (by omega), if_pos (by omega)] at hab
      exact absurd hab (by simp)

theorem strLe_trans (a b c : String) (hab : strLe a b = true) (hbc : strLe b c = true) :
    strLe a c = true :=
  charListLe_trans a.data b.data c.data hab hbc

theorem strLe_total (a b : String) : strLe a b = true ∨ strLe b a = true :=
  charListLe_total a.data b.data

theorem mem_setDedupAux (x : String) : ∀ (l seen : List String),
    x ∈ setDedupAux seen l ↔ x ∈ l ∧ x ∉ seen
  | [], seen => by simp [setDedupAux]
  | y :: ys, seen => by
    simp only [setDedupAux]
    by_cases h : y ∈ seen
    · rw [if_pos h, mem_setDedupAux x ys seen]
      constructor
      · rintro ⟨h1, h2⟩
        exact ⟨List.mem_cons_of_mem y h1, h2⟩
      · rintro ⟨h1, h2⟩
        rcases List.mem_cons.mp h1 with rfl | h1'
        · exact absurd h h2
        · exact ⟨h1', h2⟩
    · rw [if_neg h]
      constructor
      · intro hx
        rcases List.mem_cons.mp hx with rfl | hx'
        · exact ⟨List.mem_cons_self x ys, h⟩
        · have h' := (mem_setDedupAux x ys (y :: seen)).mp hx'
          exact ⟨List.mem_cons_of_mem y h'.1, fun hs => h'.2 (List.mem_cons_of_mem y hs)⟩
      · rintro ⟨h1, h2⟩
        rcases List.mem_cons.mp h1 with rfl | h1'
        · exact List.mem_cons_self x _
        · by_cases hxy : x = y
          · subst hxy
            exact List.mem_cons_self x _
          · refine List.mem_cons_of_mem y ((mem_setDedupAux x ys (y :: seen)).mpr ⟨h1', ?_⟩)
            intro hs
            rcases List.mem_cons.mp hs with h' | h'
            · exact hxy h'
            · exact h2 h'

theorem mem_setDedup (x : String) (l : List String) : x ∈ setDedup l ↔ x ∈ l := by
  rw [setDedup, mem_setDedupAux]
  simp

theorem nodup_setDedupAux : ∀ (l seen : List String), (setDedupAux seen l).Nodup
  | [], _ => List.nodup_nil
  | y :: ys, seen => by
    simp only [setDedupAux]
    by_cases h : y ∈ seen
    · rw [if_pos h]
      exact nodup_setDedupAux ys seen
    · rw [if_neg h]
      refine List.Nodup.cons ?_ (nodup_setDedupAux ys (y :: seen))
      intro hy
      exact ((mem_setDedupAux y ys (y :: seen)).mp hy).2 (List.mem_cons_self y seen)

theorem nodup_setDedup (l : List String) : (setDedup l).Nodup := nodup_setDedupAux l []

/-! ## Lemmas about the storage operations -/

theorem createEntryIndexedDB_ok (now : Nat) (d : EntryDraft) (st : Store)
    (hfresh : ∀ x ∈ st, x.id ≠ toString now) :
    createEntryIndexedDB now d st = Except.ok (toString now, st ++ [mkEntry now d]) := by
  unfold createEntryIndexedDB
  have h : (st.any fun e => e.id == (mkEntry now d).id) = false := by
    rw [List.any_eq_false]
    intro x hx
    simpa [mkEntry] using hfresh x hx
  simp [h, mkEntry]
  exact hfresh

theorem getEntry_append_fresh (st : Store) (e : Entry)
    (hfresh : ∀ x ∈ st, x.id ≠ e.id) :
    getEntryIndexedDB e.id (st ++ [e]) = some e := by
  unfold getEntryIndexedDB
  induction st with
  | nil => simp
  | cons x xs ih =>
    have hx : (x.id == e.id) = false := by
      simpa using hfresh x (List.mem_cons_self x xs)
    simp only [List.cons_append, List.find?_cons, hx]
    exact ih fun y hy => hfresh y (List.mem_cons_of_mem x hy)

theorem getEntry_putRecord (st : Store) (e : Entry) :
    getEntryIndexedDB e.id (putRecord st e) = some e := by
  unfold getEntryIndexedDB
  induction st with
  | nil => simp [putRecord]
  | cons x xs ih =>
    by_cases h : x.id = e.id
    · simp [putRecord, h]
    · have hx : (x.id == e.id) = false := by simpa using h
      simp only [putRecord, if_neg h, List.find?_cons, hx]
      exact ih

theorem getAllEntriesIndexedDB_perm (st : Store) :
    List.Perm (getAllEntriesIndexedDB st) st := by
  unfold getAllEntriesIndexedDB
  exact (sortBy_perm _ _).trans (sortBy_perm _ _)

/-! ## Lemmas about the import loop -/

theorem importedEntries_length (clock : Nat → Nat) :
    ∀ (i : Nat) (ds : List EntryDraft), (importedEntries clock i ds).length = ds.length
  | _, [] => rfl
  | i, _ :: ds => by
    simp [importedEntries, importedEntries_length clock (i + 1) ds]

theorem mem_importedEntries (clock : Nat → Nat) (e : Entry) :
    ∀ (i : Nat) (ds : List EntryDraft),
      e ∈ importedEntries clock i ds ↔
        ∃ j d, ds[j]? = some d ∧ e = mkEntry (clock (i + j)) d
  | i, [] => by simp [importedEntries]
  | i, d :: ds => by
    simp only [importedEntries, List.mem_cons]
    rw [mem_importedEntries clock e (i + 1) ds]
    constructor
    · rintro (rfl | ⟨j, d', hj, he⟩)
      · exact ⟨0, d, by simp, by rw [Nat.add_zero]⟩
      · refine ⟨j + 1, d', by simpa using hj, ?_⟩
        have e : i + 1 + j = i + (j + 1) := by omega
        rw [he, e]
    · rintro ⟨j, d', hj, he⟩
      cases j with
      | zero =>
        left
        simp only [List.getElem?_cons_zero] at hj
        cases hj
        rw [he, Nat.add_zero]
      | succ j =>
        right
        refine ⟨j, d', by simpa using hj, ?_⟩
        have e : i + (j + 1) = i + 1 + j := by omega
        rw [he, e]

theorem importEntries_ok (clock : Nat → Nat) :
    ∀ (ds : List EntryDraft) (i : Nat) (st : Store),
      (∀ j, j < ds.length → ∀ x ∈ st, x.id ≠ toString (clock (i + j))) →
      (∀ j k, j < ds.length → k < ds.length →
        toString (clock (i + j)) = toString (clock (i + k)) → j = k) →
      importEntries clock i ds st = (none, st ++ importedEntries clock i ds)
  | [], i, st, _, _ => by simp [importEntries, importedEntries]
  | d :: ds, i, st, hfresh, hinj => by
    have h0 : ∀ x ∈ st, x.id ≠ toString (clock i) := by
      have h := hfresh 0 (by simp)
      simpa using h
    have hrec := importEntries_ok clock ds (i + 1) (st ++ [mkEntry (clock i) d])
      (by
        intro j hj x hx
        rcases List.mem_append.mp hx with hx' | hx'
        · have h := hfresh (j + 1) (by simpa using Nat.succ_lt_succ hj) x hx'
          have e : i + (j + 1) = i + 1 + j := by omega
          rw [e] at h
          exact h
        · simp only [List.mem_singleton] at hx'
          subst hx'
          intro hcontra
          have heq : toString (clock (i + 0)) = toString (clock (i + (j + 1))) := by
            rw [Nat.add_zero]
            have e : i + (j + 1) = i + 1 + j := by omega
            rw [e]
            simpa [mkEntry] using hcontra
          have := hinj 0 (j + 1) (by simp) (by simpa using Nat.succ_lt_succ hj) heq
          omega)
      (by
        intro j k hj hk heq
        have e1 : i + 1 + j = i + (j + 1) := by omega
        have e2 : i + 1 + k = i + (k + 1) := by omega
        rw [e1, e2] at heq
        have := hinj (j + 1) (k + 1) (by simpa using Nat.succ_lt_succ hj)
          (by simpa using Nat.succ_lt_succ hk) heq
        omega)
    simp only [importEntries]
    rw [createEntryIndexedDB_ok (clock i) d st h0]
    simp only [importedEntries]
    rw [hrec]
    simp [mkEntry]

/-! ## Lemmas about the quick-log catalog -/

theorem defaults_wf (ty : String) (ds : List String) (h : defaultOptions ty = some ds) :
    ∀ s ∈ ds, jsTrim s = s ∧ s ≠ "" := by
  unfold defaultOptions at h
  split at h
  · injection h with h'
    subst h'
    decide
  · split at h
    · injection h with h'
      subst h'
      decide
    · split at h
      · injection h with h'
        subst h'
        decide
      · exact Option.noConfusion h

theorem wf_custom_mem (c : CustomOptions) (ty : String) (hwf : WFCustomOptions c)
    (s : String) (hs : s ∈ (lookupCustom c ty).getD []) : jsTrim s = s ∧ s ≠ "" := by
  unfold lookupCustom at hs
  cases hfind : c.find? (fun p => p.1 == ty) with
  | none =>
    rw [hfind] at hs
    simp at hs
  | some p =>
    rw [hfind] at hs
    simp at hs
    exact hwf p (List.mem_of_find?_eq_some hfind) s hs

theorem lookupCustom_setCustom (c : CustomOptions) (ty : String) (v : List String) :
    lookupCustom (setCustom c ty v) ty = some v := by
  induction c with
  | nil => simp [setCustom, lookupCustom]
  | cons p rest ih =>
    obtain ⟨k, xs⟩ := p
    by_cases h : k = ty
    · simp [setCustom, h, lookupCustom]
    · have hk : (k == ty) = false := by simpa using h
      simp only [setCustom, if_neg h]
      unfold lookupCustom at ih ⊢
      simp only [List.find?_cons, hk]
      exact ih

theorem getOptions_setCustomEmpty (c : CustomOptions) (ty : String)
    (h : lookupCustom c ty = none) :
    getOptions (setCustom c ty []) ty = getOptions c ty := by
  unfold getOptions
  rw [lookupCustom_setCustom, h]
  rcases defaultOptions ty with _ | ds <;> simp

/-! ## Claim theorems -/

/-- C1: for every valid entry draft (a type from the closed category set) and
a fresh `Date.now()` id, `createEntry` on the local store followed by
`getEntry` with the returned id yields an entry whose `type`, `content` and
`tags` equal the draft's, with `tags` defaulting to the empty list when the
draft omits them. -/
theorem claim1_create_then_getEntry (now : Nat) (d : EntryDraft) (st : Store)
    (t : String) (htype : d.type = some t) (hvalid : t ∈ entryTypes)
    (hfresh : ∀ x ∈ st, x.id ≠ toString now) :
    ∃ st', createEntryIndexedDB now d st = Except.ok (toString now, st') ∧
      ∃ e, getEntryIndexedDB (toString now) st' = some e ∧
        e.type = t ∧ e.content = d.content ∧ e.tags = d.tags.getD [] ∧
        (d.tags = none → e.tags = []) := by
  have hne : t ≠ "" := by
    simp [entryTypes] at hvalid
    rcases hvalid with rfl | rfl | rfl | rfl | rfl <;> decide
  refine ⟨st ++ [mkEntry now d], createEntryIndexedDB_ok now d st hfresh,
    mkEntry now d, ?_, ?_, rfl, rfl, ?_⟩
  · have hget := getEntry_append_fresh st (mkEntry now d)
      (fun x hx => by simpa [mkEntry] using hfresh x hx)
    simpa [mkEntry] using hget
  · simp [mkEntry, jsOrString, htype, hne]
  · intro h
    simp [mkEntry, h]

/-- Concrete run of `claim1_create_then_getEntry` on an empty store. -/
theorem claim1_witness :
    ∃ st', createEntryIndexedDB 5 c1draft [] = Except.ok (toString 5, st') ∧
      ∃ e, getEntryIndexedDB (toString 5) st' = some e ∧
        e.type = "thought" ∧ e.content = c1draft.content ∧
        e.tags = c1draft.tags.getD [] ∧ (c1draft.tags = none → e.tags = []) :=
  claim1_create_then_getEntry 5 c1draft [] "thought" rfl (by decide) (by decide)

/-- C2: when no authenticated user exists or the remote create call throws,
`createEntrySupabase` still resolves with the id of the entry written to the
local store, and that entry is retrievable from the local store immediately
afterwards; the remote failure is not surfaced to the caller. -/
theorem claim2_remote_fallback (userId : Option String)
    (remote : RemoteEntry → Except String String) (now : Nat) (d : EntryDraft)
    (st : Store)
    (hfail : userId = none ∨ ∃ uid msg, userId = some uid ∧
      remote (remoteEntryOf uid d) = Except.error msg)
    (hfresh : ∀ x ∈ st, x.id ≠ toString now) :
    ∃ st', createEntrySupabase userId remote now d st = Except.ok (toString now, st') ∧
      ∃ e, getEntryIndexedDB (toString now) st' = some e ∧ e.content = d.content := by
  have hlocal := createEntryIndexedDB_ok now d st hfresh
  have hget : getEntryIndexedDB (toString now) (st ++ [mkEntry now d]) = some (mkEntry now d) := by
    have h := getEntry_append_fresh st (mkEntry now d)
      (fun x hx => by simpa [mkEntry] using hfresh x hx)
    simpa [mkEntry] using h
  rcases hfail with rfl | ⟨uid, msg, rfl, hrem⟩
  · exact ⟨st ++ [mkEntry now d], by simpa [createEntrySupabase] using hlocal,
      mkEntry now d, hget, rfl⟩
  · refine ⟨st ++ [mkEntry now d], ?_, mkEntry now d, hget, rfl⟩
    simp only [createEntrySupabase, hrem]
    exact hlocal

/-- Concrete run of `claim2_remote_fallback` with an erroring remote call. -/
theorem claim2_witness :
    ∃ st', createEntrySupabase (some "u") (fun _ => Except.error "boom") 7 c1draft [] =
        Except.ok (toString 7, st') ∧
      ∃ e, getEntryIndexedDB (toString 7) st' = some e ∧ e.content = c1draft.content :=
  claim2_remote_fallback (some "u") (fun _ => Except.error "boom") 7 c1draft []
    (Or.inr ⟨"u", "boom", rfl, rfl⟩) (by decide)

/-- C3: for every store contents (hence every insertion order),
`getAllEntries` on the local store returns a permutation of the stored entries
that is ordered by descending creation timestamp. -/
theorem claim3_getAllEntries_sorted_desc (st : Store) :
    List.Pairwise (fun a b : Entry => b.timestamp ≤ a.timestamp)
      (getAllEntriesIndexedDB st) ∧
    List.Perm (getAllEntriesIndexedDB st) st := by
  constructor
  · have h := sortBy_pairwise (fun a b : Entry => Nat.ble b.timestamp a.timestamp)
      (fun a b c hab hbc => by
        rw [Nat.ble_eq] at hab hbc ⊢
        omega)
      (fun a b => by
        rw [Nat.ble_eq, Nat.ble_eq]
        omega)
      (sortBy (fun a b => strLe a.id b.id) st)
    unfold getAllEntriesIndexedDB
    exact h.imp fun hab => by rwa [Nat.ble_eq] at hab
  · exact getAllEntriesIndexedDB_perm st

/-- C4 counterexample: deleting an id that is not in the store succeeds (the
promise resolves and the store is returned unchanged); it is not rejected as
the claim states. -/
theorem claim4_counterexample :
    deleteEntryIndexedDB "2" [c4entry] = Except.ok [c4entry] ∧
    ∀ msg, deleteEntryIndexedDB "2" [c4entry] ≠ Except.error msg := by
  constructor
  · rfl
  · intro msg h
    rw [show deleteEntryIndexedDB "2" [c4entry] = Except.ok [c4entry] from rfl] at h
    exact Except.noConfusion h

/-- C4 amended: for every id not present in the local store, `deleteEntry`
succeeds (the delete request resolves) and the store contents are unchanged
(no entry is removed or modified). -/
theorem claim4_delete_missing_id (id : String) (st : Store)
    (h : ∀ x ∈ st, x.id ≠ id) :
    deleteEntryIndexedDB id st = Except.ok st := by
  unfold deleteEntryIndexedDB
  congr 1
  rw [List.filter_eq_self]
  intro x hx
  simpa using h x hx

/-- Concrete run of `claim4_delete_missing_id`. -/
theorem claim4_witness : deleteEntryIndexedDB "7" [c4entry] = Except.ok [c4entry] :=
  claim4_delete_missing_id "7" [c4entry] (by decide)

/-- C6: for every import document whose `entries` field is missing or not an
array, `importData` rejects the document before performing any write: the
store and the settings are returned unchanged together with the validation
error. -/
theorem claim6_import_rejects_malformed (doc : ImportDoc) (confirmed : Bool)
    (clock : Nat → Nat) (st : Store) (stg : SettingsState)
    (h : doc.entries = EntriesField.absent ∨
      ∃ b, doc.entries = EntriesField.nonArray b) :
    importData doc confirmed clock st stg = (some "Invalid data format", st, stg) := by
  unfold importData
  rcases h with h | ⟨b, h⟩ <;> rw [h]

/-- Concrete run of `claim6_import_rejects_malformed` on a document whose
`entries` field is a truthy non-array. -/
theorem claim6_witness :
    importData c6doc true (fun i => i) [c4entry] defaultSettings =
      (some "Invalid data format", [c4entry], defaultSettings) :=
  claim6_import_rejects_malformed c6doc true (fun i => i) [c4entry] defaultSettings
    (Or.inr ⟨true, rfl⟩)

/-- C9: bucketing the entries dated 2024-03-01 and 2024-03-31 and rendering
March 2024 (0-based month 2) marks exactly the two days 1 and 31 with count 1
each, while rendering February 2024 (0-based month 1) marks no day. -/
theorem claim9_calendar_bucketing :
    renderMarkedDays 2024 2 (loadEntries [c9entry1, c9entry2]) = [(1, 1), (31, 1)] ∧
    renderMarkedDays 2024 1 (loadEntries [c9entry1, c9entry2]) = [] := by
  decide

/-- C10: for every entry present in the local store and every patch,
`updateEntry` resolves, the stored entry keeps its pre-update `id` and
`timestamp` even when the patch contains `id` or `timestamp` keys, and every
field not named in the patch is unchanged. -/
theorem claim10_update_preserves_frame (id : String) (u : EntryPatch) (st : Store)
    (e : Entry) (h : getEntryIndexedDB id st = some e) :
    ∃ st', updateEntryIndexedDB id u st = Except.ok st' ∧
      ∃ e', getEntryIndexedDB id st' = some e' ∧
        e'.id = e.id ∧ e'.timestamp = e.timestamp ∧
        (u.date = none → e'.date = e.date) ∧
        (u.type = none → e'.type = e.type) ∧
        (u.content = none → e'.content = e.content) ∧
        (u.tags = none → e'.tags = e.tags) ∧
        (u.customFields = none → e'.customFields = e.customFields) := by
  have hid : e.id = id := by
    have hfound := List.find?_some h
    simpa using hfound
  refine ⟨putRecord st (applyUpdate e u id), ?_, applyUpdate e u id, ?_, ?_, rfl,
    ?_, ?_, ?_, ?_, ?_⟩
  · unfold updateEntryIndexedDB
    rw [h]
  · have hput := getEntry_putRecord st (applyUpdate e u id)
    simpa [applyUpdate] using hput
  · simp [applyUpdate, hid]
  · intro hn
    simp [applyUpdate, hn]
  · intro hn
    simp [applyUpdate, hn]
  · intro hn
    simp [applyUpdate, hn]
  · intro hn
    simp [applyUpdate, hn]
  · intro hn
    simp [applyUpdate, hn]

/-- Concrete run of `claim10_update_preserves_frame` with a patch that tries
to overwrite `id` and `timestamp`. -/
theorem claim10_witness :
    ∃ st', updateEntryIndexedDB "5" c10patch [c10entry] = Except.ok st' ∧
      ∃ e', getEntryIndexedDB "5" st' = some e' ∧
        e'.id = c10entry.id ∧ e'.timestamp = c10entry.timestamp ∧
        (c10patch.date = none → e'.date = c10entry.date) ∧
        (c10patch.type = none → e'.type = c10entry.type) ∧
        (c10patch.content = none → e'.content = c10entry.content) ∧
        (c10patch.tags = none → e'.tags = c10entry.tags) ∧
        (c10patch.customFields = none → e'.customFields = c10entry.customFields) :=
  claim10_update_preserves_frame "5" c10patch [c10entry] c10entry (by decide)

/-- C5: exporting a store and importing the export document into an empty
store (with a fresh, injective `Date.now()` clock) succeeds and produces a
store with the same number of entries; each imported entry carries a fresh
identifier and timestamp rather than the original ones, and equals the result
of replaying an exported entry's `type`, `content` and `tags` through the
normal create path. -/
theorem claim5_export_then_import (st : Store) (stg : SettingsState) (iso : String)
    (clock : Nat → Nat)
    (hinj : ∀ j k, j < st.length → k < st.length →
      toString (clock j) = toString (clock k) → j = k)
    (hfreshId : ∀ j, j < st.length → ∀ x ∈ st, x.id ≠ toString (clock j))
    (hfreshTs : ∀ j, j < st.length → ∀ x ∈ st, x.timestamp ≠ clock j) :
    ∃ st' stg',
      importData (importDocOfExport (exportData st stg iso)) true clock []
        defaultSettings = (none, st', stg') ∧
      st'.length = st.length ∧
      ∀ e' ∈ st',
        (∀ x ∈ st, e'.id ≠ x.id ∧ e'.timestamp ≠ x.timestamp) ∧
        ∃ j orig, (getAllEntriesIndexedDB st)[j]? = some orig ∧
          e' = mkEntry (clock j) (draftOfEntry orig) := by
  have hlenAll : (getAllEntriesIndexedDB st).length = st.length :=
    (getAllEntriesIndexedDB_perm st).length_eq
  have hlds : ((getAllEntriesIndexedDB st).map draftOfEntry).length = st.length := by
    rw [List.length_map, hlenAll]
  have himp := importEntries_ok clock ((getAllEntriesIndexedDB st).map draftOfEntry) 0 []
    (by
      intro j hj x hx
      simp at hx)
    (by
      intro j k hj hk heq
      rw [Nat.zero_add, Nat.zero_add] at heq
      rw [hlds] at hj hk
      exact hinj j k hj hk heq)
  refine ⟨importedEntries clock 0 ((getAllEntriesIndexedDB st).map draftOfEntry),
    mergeSettings (blobOfSettings stg), ?_, ?_, ?_⟩
  · simp only [importData, importDocOfExport, exportData, if_true]
    rw [himp]
    simp
  · rw [importedEntries_length, hlds]
  · intro e' he'
    rw [mem_importedEntries] at he'
    obtain ⟨j, d, hj, hval⟩ := he'
    rw [Nat.zero_add] at hval
    rw [List.getElem?_map] at hj
    cases horig : (getAllEntriesIndexedDB st)[j]? with
    | none =>
      rw [horig] at hj
      simp at hj
    | some orig =>
      rw [horig] at hj
      simp at hj
      have hjlt : j < st.length := by
        rw [← hlenAll]
        by_contra hge
        rw [List.getElem?_eq_none (by omega)] at horig
        exact Option.noConfusion horig
      subst hj
      constructor
      · intro x hx
        constructor
        · rw [hval]
          exact fun hcontra => hfreshId j hjlt x hx (by simpa [mkEntry] using hcontra.symm)
        · rw [hval]
          exact fun hcontra => hfreshTs j hjlt x hx (by simpa [mkEntry] using hcontra.symm)
      · exact ⟨j, orig, horig, hval⟩

/-- Concrete run of `claim5_export_then_import` on a one-entry store. -/
theorem claim5_witness :
    ∃ st' stg',
      importData (importDocOfExport (exportData [c5entry] defaultSettings "x")) true
        (fun i => i + 100) [] defaultSettings = (none, st', stg') ∧
      st'.length = ([c5entry] : Store).length ∧
      ∀ e' ∈ st',
        (∀ x ∈ ([c5entry] : Store), e'.id ≠ x.id ∧ e'.timestamp ≠ x.timestamp) ∧
        ∃ j orig, (getAllEntriesIndexedDB [c5entry])[j]? = some orig ∧
          e' = mkEntry ((fun i => i + 100) j) (draftOfEntry orig) :=
  claim5_export_then_import [c5entry] defaultSettings "x" (fun i => i + 100)
    (by
      intro j k hj hk _
      simp only [List.length_singleton] at hj hk
      omega)
    (by
      intro j hj x hx
      simp only [List.length_singleton] at hj
      have hj0 : j = 0 := by omega
      subst hj0
      simp only [List.mem_singleton] at hx
      subst hx
      decide)
    (by
      intro j hj x hx
      simp only [List.length_singleton] at hj
      have hj0 : j = 0 := by omega
      subst hj0
      simp only [List.mem_singleton] at hx
      subst hx
      decide)

/-- C7: for every category and string, a call of `addCustomOption` with a
string already present in the merged option list (as after a successful first
add of the same string) returns failure and leaves the option list for that
category unchanged in size and contents; matching is exact and case-sensitive
against the merged default-plus-custom list.  The state hypothesis records
the invariant that stored custom options are trimmed and non-blank, which
every state reachable through `addCustomOption` satisfies. -/
theorem claim7_addCustomOption_duplicate (c : CustomOptions) (ty s : String)
    (hwf : WFCustomOptions c) (hs : s ∈ getOptions c ty) :
    (addCustomOption c ty s).1 = false ∧
    getOptions (addCustomOption c ty s).2 ty = getOptions c ty := by
  cases hdo : defaultOptions ty with
  | none =>
    unfold getOptions at hs
    rw [hdo] at hs
    simp at hs
  | some ds =>
    have hmem : s ∈ ds ∨ s ∈ (lookupCustom c ty).getD [] := by
      unfold getOptions at hs
      rw [hdo] at hs
      have hm := (sortBy_perm strLe _).mem_iff.mp hs
      rw [mem_setDedup] at hm
      exact List.mem_append.mp hm
    have htrim : jsTrim s = s ∧ s ≠ "" := by
      rcases hmem with h | h
      · exact defaults_wf ty ds hdo s h
      · exact wf_custom_mem c ty hwf s h
    cases hlc : lookupCustom c ty with
    | some l =>
      have hres : addCustomOption c ty s = (false, c) := by
        simp [addCustomOption, htrim.1, htrim.2, hlc, hs]
      rw [hres]
      exact ⟨rfl, rfl⟩
    | none =>
      have hgo := getOptions_setCustomEmpty c ty hlc
      have hres : addCustomOption c ty s = (false, setCustom c ty []) := by
        simp [addCustomOption, htrim.1, htrim.2, hlc, hgo, hs]
      rw [hres]
      exact ⟨rfl, hgo⟩

/-- Concrete run of `claim7_addCustomOption_duplicate`: re-adding the built-in
habit option leaves the merged list unchanged. -/
theorem claim7_witness :
    (addCustomOption initialCustomOptions "habit" "Exercise").1 = false ∧
    getOptions (addCustomOption initialCustomOptions "habit" "Exercise").2 "habit" =
      getOptions initialCustomOptions "habit" :=
  claim7_addCustomOption_duplicate initialCustomOptions "habit" "Exercise"
    (by
      intro p hp s hs
      simp only [initialCustomOptions, List.mem_cons, List.not_mem_nil, or_false] at hp
      rcases hp with rfl | rfl | rfl <;> simp at hs)
    (by decide)

/-- C8: for every category with a built-in list, `getOptions` returns exactly
the union of the built-in list and the user-added custom list, without
duplicates and sorted by the string comparator; for any other category it
returns the empty list. -/
theorem claim8_getOptions_spec (c : CustomOptions) (ty : String) :
    (∀ ds, defaultOptions ty = some ds →
      (∀ s, s ∈ getOptions c ty ↔ s ∈ ds ∨ s ∈ (lookupCustom c ty).getD []) ∧
      List.Pairwise (fun a b => strLe a b = true) (getOptions c ty) ∧
      (getOptions c ty).Nodup) ∧
    (defaultOptions ty = none → getOptions c ty = []) := by
  constructor
  · intro ds hds
    have hopt : getOptions c ty =
        sortBy strLe (setDedup (ds ++ (lookupCustom c ty).getD [])) := by
      unfold getOptions
      rw [hds]
    refine ⟨?_, ?_, ?_⟩
    · intro s
      rw [hopt, (sortBy_perm strLe _).mem_iff, mem_setDedup, List.mem_append]
    · rw [hopt]
      exact sortBy_pairwise strLe strLe_trans strLe_total _
    · rw [hopt]
      exact (sortBy_perm strLe _).symm.nodup (nodup_setDedup _)
  · intro h
    unfold getOptions
    rw [h]

/-- Concrete run of `claim8_getOptions_spec` on the built-in category `habit`
and the unknown category `banana`. -/
theorem claim8_witness :
    ("Exercise" ∈ getOptions initialCustomOptions "habit" ↔
      "Exercise" ∈ habitDefaults ∨
        "Exercise" ∈ (lookupCustom initialCustomOptions "habit").getD []) ∧
    getOptions initialCustomOptions "banana" = [] :=
  ⟨((claim8_getOptions_spec initialCustomOptions "habit").1 habitDefaults rfl).1 "Exercise",
    (claim8_getOptions_spec initialCustomOptions "banana").2 rfl⟩
